import Mathlib

/-!
Verification of the AsfST semantic dependency-graph engine.

The definitions below are a shallow embedding of the JavaScript sources:
JavaScript `Map` objects are modelled as association lists
(`List (String × α)`) in insertion order, mutation is explicit state
passing, thrown exceptions become `Except String`, and the free-form
attribute bags become tagged unions with one constructor per call-site
shape in the source.
-/

namespace AsfST

/-- Association-list lookup, modelling `Map.prototype.get`. -/
def mlookup {α : Type} (m : List (String × α)) (k : String) : Option α :=
  match m with
  | [] => none
  | (k', v) :: rest => if k' = k then some v else mlookup rest k

/-- `Map.prototype.set`: replace in place when present, append otherwise
(JavaScript maps preserve insertion order). -/
def mset {α : Type} (m : List (String × α)) (k : String) (v : α) : List (String × α) :=
  if (mlookup m k).isSome then
    m.map (fun p => if p.1 = k then (p.1, v) else p)
  else
    m ++ [(k, v)]

/-- In-place update of the value stored at key `k`; models mutating the
array object obtained from `Map.prototype.get` (e.g. `.push`). -/
def mupdate {α : Type} (m : List (String × α)) (k : String) (f : α → α) : List (String × α) :=
  match m with
  | [] => []
  | (a, b) :: rest => (if a = k then (a, f b) else (a, b)) :: mupdate rest k f

/-- A field entry of a parsed SOQL query; the source guards each entry with
`typeof field === 'string'`, so non-string entries are represented explicitly. -/
inductive QField where
  | str (v : String)
  | nonstring
deriving DecidableEq

/-- Node attribute bags: one constructor per `addNode` call-site shape in
`semantic-graph.js` (`Date.now()` creation timestamps are external input
and are not modelled). -/
inductive Metadata where
  | empty
  | classMeta (file ctype : String) (modifiers : List String)
      (implementsL : List String) (extendsS : Option String)
  | methodMeta (returnType : String) (parameters : List (String × String))
      (modifiers : List String) (complexity line : Nat)
  | fieldMeta (ftype : String) (modifiers : List String) (initialValue : Option String)
  | sobjectMeta (standard : Bool)
  | sfieldMeta (object field : String)
deriving DecidableEq

/-- Edge attribute bags: one constructor per `addEdge` call-site shape. -/
inductive EdgeMeta where
  | empty
  | kindMeta (kind : String)
  | readsMeta (fields : List QField) (line : Nat)
  | accessMode (mode : String)
  | dmlMeta (target : String) (line : Nat)
  | callsMeta (line : Nat) (arguments : String)
deriving DecidableEq

/-- A graph node: `{ id, type, name, metadata }` from `semantic-graph.js`. -/
structure Node where
  id : String
  type : String
  name : String
  metadata : Metadata
deriving DecidableEq

/-- A graph edge: `{ id, from, to, type, metadata, weight }`. -/
structure Edge where
  id : String
  «from» : String
  «to» : String
  type : String
  metadata : EdgeMeta
  weight : Nat
deriving DecidableEq

/-- `nodeId(type, name)` = `` `${type}:${parts.join('.')}` `` with one part. -/
def nodeId (ty name : String) : String := ty ++ ":" ++ name

/-- `edgeId(from, to, type)` = `` `${from}-${type}->${to}` ``. -/
def edgeId (fro t ty : String) : String := fro ++ "-" ++ ty ++ "->" ++ t

/-- The `SemanticGraph` state: node store, edge store, adjacency indexes and
the auxiliary name-to-id maps, all in `Map` insertion order. -/
structure SemanticGraph where
  nodes : List (String × Node)
  edges : List (String × Edge)
  outgoing : List (String × List Edge)
  incoming : List (String × List Edge)
  classNodes : List (String × String)
  methodNodes : List (String × String)
  fieldNodes : List (String × String)
  objectNodes : List (String × String)
deriving DecidableEq

/-- The state built by the `SemanticGraph` constructor with no parsed results. -/
def SemanticGraph.empty : SemanticGraph := ⟨[], [], [], [], [], [], [], []⟩

/-- `SemanticGraph.addNode(type, name, metadata)`: de-duplicates by id,
initialises the adjacency lists for a fresh node, returns the id. -/
def addNode (s : SemanticGraph) (ty name : String) (metadata : Metadata) :
    SemanticGraph × String :=
  let id := nodeId ty name
  if (mlookup s.nodes id).isSome then (s, id)
  else
    let s := { s with nodes := mset s.nodes id ⟨id, ty, name, metadata⟩ }
    let s := if (mlookup s.outgoing id).isSome then s
             else { s with outgoing := mset s.outgoing id [] }
    let s := if (mlookup s.incoming id).isSome then s
             else { s with incoming := mset s.incoming id [] }
    (s, id)

/-- `SemanticGraph.addEdge(fromId, toId, edgeType, metadata)`: throws when an
endpoint node is missing (the thrown message is the `Except.error` payload,
and the state component is the graph after the call, which the throw leaves
untouched); otherwise inserts the edge unless it already exists and pushes it
onto both adjacency lists. -/
def addEdge (s : SemanticGraph) (fromId toId edgeType : String) (metadata : EdgeMeta) :
    SemanticGraph × Except String Unit :=
  if !(mlookup s.nodes fromId).isSome || !(mlookup s.nodes toId).isSome then
    (s, .error ("Cannot add edge: nodes " ++ fromId ++ " or " ++ toId ++ " do not exist"))
  else
    let eid := edgeId fromId toId edgeType
    if (mlookup s.edges eid).isSome then (s, .ok ())
    else
      let e : Edge := ⟨eid, fromId, toId, edgeType, metadata, 1⟩
      ({ s with
          edges := mset s.edges eid e,
          outgoing := mupdate s.outgoing fromId (fun l => l ++ [e]),
          incoming := mupdate s.incoming toId (fun l => l ++ [e]) },
       .ok ())

/-! ### Association-list lemmas -/

theorem mlookup_append_of_some {α : Type} {m : List (String × α)} {k : String} {v : α}
    (m' : List (String × α)) (h : mlookup m k = some v) :
    mlookup (m ++ m') k = some v := by
  induction m with
  | nil => simp [mlookup] at h
  | cons p rest ih =>
    obtain ⟨a, b⟩ := p
    by_cases hak : a = k
    · simpa [mlookup, hak] using h
    · simp only [mlookup, List.cons_append, if_neg hak] at h ⊢
      exact ih h

theorem mlookup_append_of_none {α : Type} {m : List (String × α)} {k : String}
    (m' : List (String × α)) (h : mlookup m k = none) :
    mlookup (m ++ m') k = mlookup m' k := by
  induction m with
  | nil => simp
  | cons p rest ih =>
    obtain ⟨a, b⟩ := p
    by_cases hak : a = k
    · simp [mlookup, hak] at h
    · simp only [mlookup, List.cons_append, if_neg hak] at h ⊢
      exact ih h

theorem mlookup_single {α : Type} (k k' : String) (v : α) :
    mlookup [(k, v)] k' = if k = k' then some v else none := rfl

theorem mlookup_mupdate {α : Type} (m : List (String × α)) (k : String) (f : α → α)
    (k' : String) :
    mlookup (mupdate m k f) k' = if k' = k then (mlookup m k).map f else mlookup m k' := by
  induction m with
  | nil => by_cases h : k' = k <;> simp [mlookup, mupdate, h]
  | cons p rest ih =>
    obtain ⟨a, b⟩ := p
    by_cases hak : a = k
    · subst hak
      simp only [mupdate, if_pos rfl]
      by_cases hak' : a = k'
      · subst hak'
        simp [mlookup]
      · have hne : k' ≠ a := fun h => hak' h.symm
        simp only [mlookup, if_neg hak', if_neg hne, ih]
    · simp only [mupdate, if_neg hak]
      by_cases hak' : a = k'
      · subst hak'
        simp [mlookup, if_neg hak]
      · simp only [mlookup, if_neg hak', if_neg hak, ih]

theorem mlookup_isSome_mupdate {α : Type} (m : List (String × α)) (k : String) (f : α → α)
    (k' : String) :
    (mlookup (mupdate m k f) k').isSome = (mlookup m k').isSome := by
  rw [mlookup_mupdate]
  by_cases h : k' = k
  · subst h; simp
  · simp [h]

theorem mlookup_eq_none_iff {α : Type} {m : List (String × α)} {k : String} :
    mlookup m k = none ↔ k ∉ m.map Prod.fst := by
  induction m with
  | nil => simp [mlookup]
  | cons p rest ih =>
    obtain ⟨a, b⟩ := p
    by_cases hak : a = k
    · subst hak; simp [mlookup]
    · have hka : ¬k = a := fun h => hak h.symm
      simp [mlookup, hak, ih, hka]

theorem mlookup_mem {α : Type} {m : List (String × α)} {k : String} {v : α}
    (h : mlookup m k = some v) : (k, v) ∈ m := by
  induction m with
  | nil => simp [mlookup] at h
  | cons p rest ih =>
    obtain ⟨a, b⟩ := p
    by_cases hak : a = k
    · subst hak
      simp [mlookup] at h
      simp [h]
    · simp only [mlookup, if_neg hak] at h
      exact List.mem_cons_of_mem _ (ih h)

theorem mlookup_of_mem {α : Type} {m : List (String × α)}
    (hn : (m.map Prod.fst).Nodup) {k : String} {v : α} (h : (k, v) ∈ m) :
    mlookup m k = some v := by
  induction m with
  | nil => simp at h
  | cons p rest ih =>
    obtain ⟨a, b⟩ := p
    simp only [List.map_cons, List.nodup_cons] at hn
    rcases List.mem_cons.mp h with heq | hmem
    · cases heq
      simp [mlookup]
    · have hak : a ≠ k := by
        intro hc; subst hc
        exact hn.1 (List.mem_map.mpr ⟨(a, v), hmem, rfl⟩)
      simp only [mlookup, if_neg hak]
      exact ih hn.2 hmem

theorem keys_nodup_append {α : Type} {m : List (String × α)}
    (hn : (m.map Prod.fst).Nodup) {k : String} (hk : mlookup m k = none) (v : α) :
    ((m ++ [(k, v)]).map Prod.fst).Nodup := by
  rw [List.map_append]
  refine List.Nodup.append hn (by simp) ?_
  intro a ha hb
  simp only [List.map_cons, List.map_nil, List.mem_singleton] at hb
  subst hb
  exact (mlookup_eq_none_iff.mp hk) ha

theorem mset_of_none {α : Type} {m : List (String × α)} {k : String}
    (h : mlookup m k = none) (v : α) : mset m k v = m ++ [(k, v)] := by
  simp [mset, h]

/-! ### Build operations and the adjacency-index invariant -/

/-- One public mutation call on the graph. -/
inductive GraphOp where
  | node (ty name : String) (md : Metadata)
  | edge (fro t ty : String) (md : EdgeMeta)

/-- Execute one call (a thrown `addEdge` error leaves the state unchanged). -/
def applyOp (s : SemanticGraph) : GraphOp → SemanticGraph
  | .node ty n md => (addNode s ty n md).1
  | .edge f t ty md => (addEdge s f t ty md).1

/-- The graph after a sequence of `addNode`/`addEdge` calls on a fresh graph. -/
def runOps (ops : List GraphOp) : SemanticGraph :=
  ops.foldl applyOp SemanticGraph.empty

/-- Internal invariant of the graph state, strong enough to be inductive. -/
structure InvG (s : SemanticGraph) : Prop where
  nodesKeys : (s.nodes.map Prod.fst).Nodup
  edgesKeys : (s.edges.map Prod.fst).Nodup
  domOut : ∀ k, (mlookup s.nodes k).isSome = (mlookup s.outgoing k).isSome
  domIn : ∀ k, (mlookup s.nodes k).isSome = (mlookup s.incoming k).isSome
  nodeIdOk : ∀ k n, mlookup s.nodes k = some n → n.id = k
  edgeWf : ∀ eid e, mlookup s.edges eid = some e →
    e.id = eid ∧ (mlookup s.nodes e.«from»).isSome = true ∧
      (mlookup s.nodes e.«to»).isSome = true
  outCount : ∀ eid e, mlookup s.edges eid = some e →
    ∃ l, mlookup s.outgoing e.«from» = some l ∧ l.count e = 1
  inCount : ∀ eid e, mlookup s.edges eid = some e →
    ∃ l, mlookup s.incoming e.«to» = some l ∧ l.count e = 1
  outMem : ∀ k l, mlookup s.outgoing k = some l →
    ∀ e ∈ l, e.«from» = k ∧ mlookup s.edges e.id = some e
  inMem : ∀ k l, mlookup s.incoming k = some l →
    ∀ e ∈ l, e.«to» = k ∧ mlookup s.edges e.id = some e

theorem InvG_empty : InvG SemanticGraph.empty := by
  constructor <;> simp [SemanticGraph.empty, mlookup]

/-! ### Characterisations of `addNode` and `addEdge` -/

theorem addNode_existing {s : SemanticGraph} {ty n : String} (md : Metadata)
    (h : (mlookup s.nodes (nodeId ty n)).isSome = true) :
    addNode s ty n md = (s, nodeId ty n) := by
  simp [addNode, h]

theorem addNode_fresh {s : SemanticGraph} {ty n : String} (md : Metadata)
    (h : mlookup s.nodes (nodeId ty n) = none)
    (hout : mlookup s.outgoing (nodeId ty n) = none)
    (hinc : mlookup s.incoming (nodeId ty n) = none) :
    addNode s ty n md =
      ({ s with
          nodes := s.nodes ++ [(nodeId ty n, ⟨nodeId ty n, ty, n, md⟩)],
          outgoing := s.outgoing ++ [(nodeId ty n, [])],
          incoming := s.incoming ++ [(nodeId ty n, [])] },
        nodeId ty n) := by
  simp [addNode, h, hout, hinc, mset_of_none]

theorem addNode_snd (s : SemanticGraph) (ty n : String) (md : Metadata) :
    (addNode s ty n md).2 = nodeId ty n := by
  by_cases h : (mlookup s.nodes (nodeId ty n)).isSome = true
  · simp [addNode, h]
  · simp [addNode, h]

theorem addNode_fst_nodes_fresh {s : SemanticGraph} {ty n : String} (md : Metadata)
    (h : mlookup s.nodes (nodeId ty n) = none) :
    (addNode s ty n md).1.nodes =
      s.nodes ++ [(nodeId ty n, ⟨nodeId ty n, ty, n, md⟩)] := by
  unfold addNode
  simp only [h, Option.isSome_none, Bool.false_eq_true, if_false]
  split <;> split <;> simp [mset_of_none h]

theorem addEdge_missing {s : SemanticGraph} {f t : String} (ty : String) (md : EdgeMeta)
    (h : ¬((mlookup s.nodes f).isSome = true ∧ (mlookup s.nodes t).isSome = true)) :
    addEdge s f t ty md =
      (s, .error ("Cannot add edge: nodes " ++ f ++ " or " ++ t ++ " do not exist")) := by
  by_cases hf : (mlookup s.nodes f).isSome <;> by_cases ht : (mlookup s.nodes t).isSome <;>
    simp [addEdge, hf, ht] at h ⊢

theorem addEdge_dup {s : SemanticGraph} {f t ty : String} (md : EdgeMeta)
    (hf : (mlookup s.nodes f).isSome = true) (ht : (mlookup s.nodes t).isSome = true)
    (he : (mlookup s.edges (edgeId f t ty)).isSome = true) :
    addEdge s f t ty md = (s, .ok ()) := by
  simp [addEdge, hf, ht, he]

theorem addEdge_new {s : SemanticGraph} {f t ty : String} (md : EdgeMeta)
    (hf : (mlookup s.nodes f).isSome = true) (ht : (mlookup s.nodes t).isSome = true)
    (he : mlookup s.edges (edgeId f t ty) = none) :
    addEdge s f t ty md =
      ({ s with
          edges := s.edges ++ [(edgeId f t ty, ⟨edgeId f t ty, f, t, ty, md, 1⟩)],
          outgoing := mupdate s.outgoing f (fun l => l ++ [⟨edgeId f t ty, f, t, ty, md, 1⟩]),
          incoming := mupdate s.incoming t (fun l => l ++ [⟨edgeId f t ty, f, t, ty, md, 1⟩]) },
        .ok ()) := by
  simp [addEdge, hf, ht, he, mset_of_none]

/-! ### Invariant preservation -/

theorem mlookup_isSome_append {α : Type} {m : List (String × α)} {k : String}
    (m' : List (String × α)) (h : (mlookup m k).isSome = true) :
    (mlookup (m ++ m') k).isSome = true := by
  obtain ⟨v, hv⟩ := Option.isSome_iff_exists.mp h
  rw [mlookup_append_of_some m' hv]
  rfl

theorem InvG_addNode {s : SemanticGraph} (ty n : String) (md : Metadata) (h : InvG s) :
    InvG (addNode s ty n md).1 := by
  by_cases hn : (mlookup s.nodes (nodeId ty n)).isSome
  · rw [addNode_existing md hn]; exact h
  · have hnone : mlookup s.nodes (nodeId ty n) = none :=
      Option.not_isSome_iff_eq_none.mp hn
    have houtS : (mlookup s.outgoing (nodeId ty n)).isSome = false := by
      rw [← h.domOut]; rw [hnone]; rfl
    have hincS : (mlookup s.incoming (nodeId ty n)).isSome = false := by
      rw [← h.domIn]; rw [hnone]; rfl
    have hout : mlookup s.outgoing (nodeId ty n) = none :=
      Option.not_isSome_iff_eq_none.mp (by simp [houtS])
    have hinc : mlookup s.incoming (nodeId ty n) = none :=
      Option.not_isSome_iff_eq_none.mp (by simp [hincS])
    rw [addNode_fresh md hnone hout hinc]
    set id := nodeId ty n with hid
    set nd : Node := ⟨id, ty, n, md⟩ with hnd
    refine ⟨?_, ?_, ?_, ?_, ?_, ?_, ?_, ?_, ?_, ?_⟩
    · exact keys_nodup_append h.nodesKeys hnone nd
    · exact h.edgesKeys
    ·
      intro k
      cases hk : mlookup s.nodes k with
      | some v =>
        rw [mlookup_append_of_some _ hk]
        have : (mlookup s.outgoing k).isSome = true := by
          rw [← h.domOut, hk]; rfl
        obtain ⟨l, hl⟩ := Option.isSome_iff_exists.mp this
        rw [mlookup_append_of_some _ hl]
        rfl
      | none =>
        have hok : mlookup s.outgoing k = none := by
          have := h.domOut k; rw [hk] at this
          exact Option.not_isSome_iff_eq_none.mp (by simp [← this])
        rw [mlookup_append_of_none _ hk, mlookup_append_of_none _ hok,
          mlookup_single, mlookup_single]
        by_cases hik : id = k <;> simp [hik]
    ·
      intro k
      cases hk : mlookup s.nodes k with
      | some v =>
        rw [mlookup_append_of_some _ hk]
        have : (mlookup s.incoming k).isSome = true := by
          rw [← h.domIn, hk]; rfl
        obtain ⟨l, hl⟩ := Option.isSome_iff_exists.mp this
        rw [mlookup_append_of_some _ hl]
        rfl
      | none =>
        have hok : mlookup s.incoming k = none := by
          have := h.domIn k; rw [hk] at this
          exact Option.not_isSome_iff_eq_none.mp (by simp [← this])
        rw [mlookup_append_of_none _ hk, mlookup_append_of_none _ hok,
          mlookup_single, mlookup_single]
        by_cases hik : id = k <;> simp [hik]
    ·
      intro k n' hk
      cases hold : mlookup s.nodes k with
      | some v =>
        rw [mlookup_append_of_some _ hold] at hk
        injection hk with hv
        rw [hv] at hold
        exact h.nodeIdOk k n' hold
      | none =>
        rw [mlookup_append_of_none _ hold, mlookup_single] at hk
        by_cases hik : id = k
        · rw [if_pos hik] at hk
          injection hk with hv
          rw [← hv]
          exact hik
        · rw [if_neg hik] at hk
          cases hk
    ·
      intro eid e he
      obtain ⟨h1, h2, h3⟩ := h.edgeWf eid e he
      exact ⟨h1, mlookup_isSome_append _ h2, mlookup_isSome_append _ h3⟩
    ·
      intro eid e he
      obtain ⟨l, hl, hc⟩ := h.outCount eid e he
      exact ⟨l, mlookup_append_of_some _ hl, hc⟩
    ·
      intro eid e he
      obtain ⟨l, hl, hc⟩ := h.inCount eid e he
      exact ⟨l, mlookup_append_of_some _ hl, hc⟩
    ·
      intro k l hk
      cases hold : mlookup s.outgoing k with
      | some v =>
        rw [mlookup_append_of_some _ hold] at hk
        injection hk with hv
        rw [hv] at hold
        exact h.outMem k l hold
      | none =>
        rw [mlookup_append_of_none _ hold, mlookup_single] at hk
        by_cases hik : id = k
        · rw [if_pos hik] at hk
          injection hk with hv
          intro e he
          rw [← hv] at he
          simp at he
        · rw [if_neg hik] at hk
          cases hk
    ·
      intro k l hk
      cases hold : mlookup s.incoming k with
      | some v =>
        rw [mlookup_append_of_some _ hold] at hk
        injection hk with hv
        rw [hv] at hold
        exact h.inMem k l hold
      | none =>
        rw [mlookup_append_of_none _ hold, mlookup_single] at hk
        by_cases hik : id = k
        · rw [if_pos hik] at hk
          injection hk with hv
          intro e he
          rw [← hv] at he
          simp at he
        · rw [if_neg hik] at hk
          cases hk

theorem InvG_addEdge {s : SemanticGraph} (f t ty : String) (md : EdgeMeta) (h : InvG s) :
    InvG (addEdge s f t ty md).1 := by
  by_cases hft : (mlookup s.nodes f).isSome = true ∧ (mlookup s.nodes t).isSome = true
  case neg => rw [addEdge_missing ty md hft]; exact h
  obtain ⟨hf, ht⟩ := hft
  by_cases he : (mlookup s.edges (edgeId f t ty)).isSome
  · rw [addEdge_dup md hf ht he]; exact h
  · have hnone : mlookup s.edges (edgeId f t ty) = none :=
      Option.not_isSome_iff_eq_none.mp he
    rw [addEdge_new md hf ht hnone]
    set eid := edgeId f t ty with heid
    set e : Edge := ⟨eid, f, t, ty, md, 1⟩ with hedge
    refine ⟨?_, ?_, ?_, ?_, ?_, ?_, ?_, ?_, ?_, ?_⟩
    · exact h.nodesKeys
    · exact keys_nodup_append h.edgesKeys hnone e
    · intro k
      rw [mlookup_isSome_mupdate]
      exact h.domOut k
    · intro k
      rw [mlookup_isSome_mupdate]
      exact h.domIn k
    · exact h.nodeIdOk
    ·
      intro eid' e' he'
      cases hold : mlookup s.edges eid' with
      | some v =>
        rw [mlookup_append_of_some _ hold] at he'
        injection he' with hv
        rw [hv] at hold
        exact h.edgeWf eid' e' hold
      | none =>
        rw [mlookup_append_of_none _ hold, mlookup_single] at he'
        by_cases hik : eid = eid'
        · rw [if_pos hik] at he'
          injection he' with hv
          rw [← hv]
          exact ⟨hik, hf, ht⟩
        · rw [if_neg hik] at he'
          cases he'
    ·
      intro eid' e' he'
      cases hold : mlookup s.edges eid' with
      | some v =>
        rw [mlookup_append_of_some _ hold] at he'
        injection he' with hv
        rw [hv] at hold
        obtain ⟨l, hl, hc⟩ := h.outCount eid' e' hold
        rw [mlookup_mupdate]
        by_cases hfe : e'.«from» = f
        · have hl' : mlookup s.outgoing f = some l := hfe ▸ hl
          rw [if_pos hfe, hl']
          refine ⟨l ++ [e], rfl, ?_⟩
          have hne : e' ≠ e := by
            intro hc'
            rw [hc'] at hold
            have h1 : Edge.id e = eid' := (h.edgeWf eid' e hold).1
            have h2 : eid = eid' := h1
            rw [← h2] at hold
            rw [hold] at hnone
            cases hnone
          simp [List.count_append, List.count_cons, hc, hne]
        · rw [if_neg hfe]
          exact ⟨l, hl, hc⟩
      | none =>
        rw [mlookup_append_of_none _ hold, mlookup_single] at he'
        by_cases hik : eid = eid'
        · rw [if_pos hik] at he'
          injection he' with hv
          have hfl : (mlookup s.outgoing f).isSome = true := by rw [← h.domOut]; exact hf
          obtain ⟨l, hl⟩ := Option.isSome_iff_exists.mp hfl
          rw [← hv]
          rw [mlookup_mupdate, show Edge.«from» e = f from rfl, if_pos rfl, hl]
          refine ⟨l ++ [e], rfl, ?_⟩
          have hcl : l.count e = 0 := by
            rw [List.count_eq_zero]
            intro hmem
            have h2 := (h.outMem f l hl e hmem).2
            rw [show Edge.id e = eid from rfl] at h2
            rw [h2] at hnone
            cases hnone
          simp [List.count_append, List.count_cons, hcl]
        · rw [if_neg hik] at he'
          cases he'
    ·
      intro eid' e' he'
      cases hold : mlookup s.edges eid' with
      | some v =>
        rw [mlookup_append_of_some _ hold] at he'
        injection he' with hv
        rw [hv] at hold
        obtain ⟨l, hl, hc⟩ := h.inCount eid' e' hold
        rw [mlookup_mupdate]
        by_cases hfe : e'.«to» = t
        · have hl' : mlookup s.incoming t = some l := hfe ▸ hl
          rw [if_pos hfe, hl']
          refine ⟨l ++ [e], rfl, ?_⟩
          have hne : e' ≠ e := by
            intro hc'
            rw [hc'] at hold
            have h1 : Edge.id e = eid' := (h.edgeWf eid' e hold).1
            have h2 : eid = eid' := h1
            rw [← h2] at hold
            rw [hold] at hnone
            cases hnone
          simp [List.count_append, List.count_cons, hc, hne]
        · rw [if_neg hfe]
          exact ⟨l, hl, hc⟩
      | none =>
        rw [mlookup_append_of_none _ hold, mlookup_single] at he'
        by_cases hik : eid = eid'
        · rw [if_pos hik] at he'
          injection he' with hv
          have hfl : (mlookup s.incoming t).isSome = true := by rw [← h.domIn]; exact ht
          obtain ⟨l, hl⟩ := Option.isSome_iff_exists.mp hfl
          rw [← hv]
          rw [mlookup_mupdate, show Edge.«to» e = t from rfl, if_pos rfl, hl]
          refine ⟨l ++ [e], rfl, ?_⟩
          have hcl : l.count e = 0 := by
            rw [List.count_eq_zero]
            intro hmem
            have h2 := (h.inMem t l hl e hmem).2
            rw [show Edge.id e = eid from rfl] at h2
            rw [h2] at hnone
            cases hnone
          simp [List.count_append, List.count_cons, hcl]
        · rw [if_neg hik] at he'
          cases he'
    ·
      intro k l hk
      rw [mlookup_mupdate] at hk
      by_cases hkf : k = f
      · rw [if_pos hkf] at hk
        cases hl0 : mlookup s.outgoing f with
        | none => rw [hl0] at hk; cases hk
        | some l0 =>
          rw [hl0] at hk
          cases hk
          intro e' he'
          rcases List.mem_append.mp he' with hmem | hmem
          · obtain ⟨h1, h2⟩ := h.outMem f l0 hl0 e' hmem
            refine ⟨?_, mlookup_append_of_some _ h2⟩
            rw [hkf]
            exact h1
          · rw [List.mem_singleton.mp hmem]
            refine ⟨?_, ?_⟩
            · rw [hkf]
            · rw [show Edge.id e = eid from rfl,
                mlookup_append_of_none _ hnone, mlookup_single, if_pos rfl]
      · rw [if_neg hkf] at hk
        intro e' he'
        obtain ⟨h1, h2⟩ := h.outMem k l hk e' he'
        exact ⟨h1, mlookup_append_of_some _ h2⟩
    ·
      intro k l hk
      rw [mlookup_mupdate] at hk
      by_cases hkf : k = t
      · rw [if_pos hkf] at hk
        cases hl0 : mlookup s.incoming t with
        | none => rw [hl0] at hk; cases hk
        | some l0 =>
          rw [hl0] at hk
          cases hk
          intro e' he'
          rcases List.mem_append.mp he' with hmem | hmem
          · obtain ⟨h1, h2⟩ := h.inMem t l0 hl0 e' hmem
            refine ⟨?_, mlookup_append_of_some _ h2⟩
            rw [hkf]
            exact h1
          · rw [List.mem_singleton.mp hmem]
            refine ⟨?_, ?_⟩
            · rw [hkf]
            · rw [show Edge.id e = eid from rfl,
                mlookup_append_of_none _ hnone, mlookup_single, if_pos rfl]
      · rw [if_neg hkf] at hk
        intro e' he'
        obtain ⟨h1, h2⟩ := h.inMem k l hk e' he'
        exact ⟨h1, mlookup_append_of_some _ h2⟩

theorem InvG_applyOp (s : SemanticGraph) (op : GraphOp) (h : InvG s) :
    InvG (applyOp s op) := by
  cases op with
  | node ty n md => exact InvG_addNode ty n md h
  | edge f t ty md => exact InvG_addEdge f t ty md h

theorem InvG_foldl (ops : List GraphOp) :
    ∀ s, InvG s → InvG (ops.foldl applyOp s) := by
  induction ops with
  | nil => intro s h; exact h
  | cons op rest ih => intro s h; exact ih _ (InvG_applyOp s op h)

theorem InvG_runOps (ops : List GraphOp) : InvG (runOps ops) :=
  InvG_foldl ops _ InvG_empty

/-- The adjacency-index/edge-set consistency property claimed in the spec:
every stored edge occurs exactly once in the outgoing list of its source and
exactly once in the incoming list of its target, and conversely every edge
held in an adjacency list is an entry of the edge store for that direction. -/
def GraphConsistent (s : SemanticGraph) : Prop :=
  (∀ eid e, mlookup s.edges eid = some e →
    (∃ l, mlookup s.outgoing e.«from» = some l ∧ l.count e = 1) ∧
    (∃ l, mlookup s.incoming e.«to» = some l ∧ l.count e = 1)) ∧
  (∀ k l, mlookup s.outgoing k = some l →
    ∀ e ∈ l, e.«from» = k ∧ mlookup s.edges e.id = some e) ∧
  (∀ k l, mlookup s.incoming k = some l →
    ∀ e ∈ l, e.«to» = k ∧ mlookup s.edges e.id = some e)

/-- C1: after any sequence of `addNode`/`addEdge` calls on a `SemanticGraph`,
every edge in the edge store appears (exactly once) in the outgoing list of
its `from` node and in the incoming list of its `to` node, and conversely
every edge found in any adjacency list is in the edge store. -/
theorem adjacency_edge_set_consistency (ops : List GraphOp) :
    GraphConsistent (runOps ops) :=
  let h := InvG_runOps ops
  ⟨fun eid e hE => ⟨h.outCount eid e hE, h.inCount eid e hE⟩, h.outMem, h.inMem⟩

/-- C2: `addEdge` signals an error exactly when one of the endpoint node ids
is absent from the node store; with both endpoints present it returns
normally for every edge type and attribute bag. -/
theorem addEdge_error_iff_missing_endpoint (s : SemanticGraph) (f t ty : String)
    (md : EdgeMeta) :
    ((∃ msg, (addEdge s f t ty md).2 = Except.error msg) ↔
      (mlookup s.nodes f = none ∨ mlookup s.nodes t = none)) ∧
    ((addEdge s f t ty md).2 = Except.ok () ↔
      ((mlookup s.nodes f).isSome = true ∧ (mlookup s.nodes t).isSome = true)) := by
  by_cases hf : (mlookup s.nodes f).isSome <;> by_cases ht : (mlookup s.nodes t).isSome
  · have hok : (addEdge s f t ty md).2 = Except.ok () := by
      by_cases he : (mlookup s.edges (edgeId f t ty)).isSome
      · rw [addEdge_dup md hf ht he]
      · rw [addEdge_new md hf ht (Option.not_isSome_iff_eq_none.mp he)]
    rw [hok]
    constructor
    · constructor
      · rintro ⟨msg, hmsg⟩; cases hmsg
      · rintro (hc | hc) <;> simp [hc] at hf ht
    · simp [hf, ht]
  · have hmiss : ¬((mlookup s.nodes f).isSome = true ∧ (mlookup s.nodes t).isSome = true) :=
      fun hc => ht hc.2
    rw [addEdge_missing ty md hmiss]
    constructor
    · simp [Option.not_isSome_iff_eq_none.mp ht]
    · constructor
      · rintro hc; cases hc
      · rintro ⟨_, hc⟩; exact absurd hc ht
  · have hmiss : ¬((mlookup s.nodes f).isSome = true ∧ (mlookup s.nodes t).isSome = true) :=
      fun hc => hf hc.1
    rw [addEdge_missing ty md hmiss]
    constructor
    · simp [Option.not_isSome_iff_eq_none.mp hf]
    · constructor
      · rintro hc; cases hc
      · rintro ⟨hc, _⟩; exact absurd hc hf
  · have hmiss : ¬((mlookup s.nodes f).isSome = true ∧ (mlookup s.nodes t).isSome = true) :=
      fun hc => hf hc.1
    rw [addEdge_missing ty md hmiss]
    constructor
    · simp [Option.not_isSome_iff_eq_none.mp hf]
    · constructor
      · rintro hc; cases hc
      · rintro ⟨hc, _⟩; exact absurd hc hf

/-- C3: re-adding a node with the same `(kind, name)` identity is a no-op
that keeps the first attribute bag, leaves the node store unchanged and
returns the same id. -/
theorem addNode_idempotent (s : SemanticGraph) (ty n : String) (md1 md2 : Metadata)
    (h : mlookup s.nodes (nodeId ty n) = none) :
    addNode (addNode s ty n md1).1 ty n md2 = ((addNode s ty n md1).1, nodeId ty n) ∧
    (addNode s ty n md1).2 = nodeId ty n ∧
    mlookup (addNode s ty n md1).1.nodes (nodeId ty n) =
      some ⟨nodeId ty n, ty, n, md1⟩ := by
  have hnodes : (addNode s ty n md1).1.nodes =
      s.nodes ++ [(nodeId ty n, ⟨nodeId ty n, ty, n, md1⟩)] :=
    addNode_fst_nodes_fresh md1 h
  have hsome : mlookup (addNode s ty n md1).1.nodes (nodeId ty n) =
      some ⟨nodeId ty n, ty, n, md1⟩ := by
    rw [hnodes, mlookup_append_of_none _ h, mlookup_single, if_pos rfl]
  refine ⟨?_, addNode_snd s ty n md1, hsome⟩
  exact addNode_existing md2 (by rw [hsome]; rfl)

/-- Witness for C3 at a concrete fresh node with two different attribute bags. -/
theorem addNode_idempotent_witness :
    mlookup SemanticGraph.empty.nodes (nodeId "class" "C") = none ∧
    (addNode (addNode SemanticGraph.empty "class" "C" Metadata.empty).1 "class" "C"
        (Metadata.sobjectMeta true) =
      ((addNode SemanticGraph.empty "class" "C" Metadata.empty).1, nodeId "class" "C") ∧
      (addNode SemanticGraph.empty "class" "C" Metadata.empty).2 = nodeId "class" "C" ∧
      mlookup (addNode SemanticGraph.empty "class" "C" Metadata.empty).1.nodes
          (nodeId "class" "C") =
        some ⟨nodeId "class" "C", "class", "C", Metadata.empty⟩) :=
  ⟨rfl, addNode_idempotent SemanticGraph.empty "class" "C" Metadata.empty
    (Metadata.sobjectMeta true) rfl⟩

/-- C9: when `addEdge` raises the missing-endpoint usage error, the whole
graph state is exactly as it was before the call. -/
theorem addEdge_atomic_on_error (s : SemanticGraph) (f t ty : String) (md : EdgeMeta)
    (msg : String) (h : (addEdge s f t ty md).2 = Except.error msg) :
    (addEdge s f t ty md).1 = s := by
  by_cases hft : (mlookup s.nodes f).isSome = true ∧ (mlookup s.nodes t).isSome = true
  · obtain ⟨hf, ht⟩ := hft
    by_cases he : (mlookup s.edges (edgeId f t ty)).isSome
    · rw [addEdge_dup md hf ht he] at h
      cases h
    · rw [addEdge_new md hf ht (Option.not_isSome_iff_eq_none.mp he)] at h
      cases h
  · rw [addEdge_missing ty md hft]

/-! ### Graph traversals and the analyzer's impact scoring -/

/-- One entry of a dependency list: `{ node, edge }` (looked-up node may be
absent from the store, as with `Map.prototype.get` returning `undefined`). -/
structure Dep where
  node : Option Node
  edge : Edge
deriving DecidableEq

/-- `getForwardDependencies(nodeId, depth, visited)`: bounded breadth-first
expansion along outgoing edges.  The JavaScript `visited` set is mutated in
place and shared across the loop, so the model threads it through the fold
and returns it alongside the dependency list. -/
def getForwardDependencies (g : SemanticGraph) :
    Nat → String → List String → List Dep × List String
  | 0, _, visited => ([], visited)
  | depth + 1, nid, visited =>
    if visited.contains nid then ([], visited)
    else
      let visited := nid :: visited
      let out := (mlookup g.outgoing nid).getD []
      out.foldl
        (fun acc edge =>
          let dep : Dep := ⟨mlookup g.nodes edge.«to», edge⟩
          if depth + 1 > 1 then
            let r := getForwardDependencies g depth edge.«to» acc.2
            (acc.1 ++ [dep] ++ r.1, r.2)
          else (acc.1 ++ [dep], acc.2))
        ([], visited)

/-- `getBackwardDependencies(nodeId, depth, visited)`: mirror image of the
forward traversal along incoming edges. -/
def getBackwardDependencies (g : SemanticGraph) :
    Nat → String → List String → List Dep × List String
  | 0, _, visited => ([], visited)
  | depth + 1, nid, visited =>
    if visited.contains nid then ([], visited)
    else
      let visited := nid :: visited
      let inc := (mlookup g.incoming nid).getD []
      inc.foldl
        (fun acc edge =>
          let dep : Dep := ⟨mlookup g.nodes edge.«from», edge⟩
          if depth + 1 > 1 then
            let r := getBackwardDependencies g depth edge.«from» acc.2
            (acc.1 ++ [dep] ++ r.1, r.2)
          else (acc.1 ++ [dep], acc.2))
        ([], visited)

/-- The base-score table of `GraphAnalyzer._calculateRiskScore`
(`{ class: 10, method: 5, field: 3, sobject: 20 }[nodeType] || 5`). -/
def baseScoreFor (nodeType : String) : ℚ :=
  if nodeType = "class" then 10
  else if nodeType = "method" then 5
  else if nodeType = "field" then 3
  else if nodeType = "sobject" then 20
  else 5

/-- `GraphAnalyzer._calculateRiskScore`: base score scaled by
`Math.min(affectedCount / 5, 3)` and rounded with `Math.round` (round half
up, i.e. `⌊x + 1/2⌋`, which is Mathlib's `round` on `ℚ`). -/
def _calculateRiskScore (nodeType : String) (affectedCount : Nat) : ℤ :=
  let impactMultiplier : ℚ := min ((affectedCount : ℚ) / 5) 3
  round (baseScoreFor nodeType * impactMultiplier)

/-- `GraphAnalyzer._riskScoreTolevel`. -/
def _riskScoreTolevel (score : ℤ) : String :=
  if score ≥ 30 then "critical"
  else if score ≥ 15 then "high"
  else if score ≥ 5 then "medium"
  else "low"

/-- The record produced by `GraphAnalyzer.analyzeImpact` (the JavaScript
`dependents`/`dependencies` previews keep the first ten entries). -/
structure ImpactResult where
  targetId : String
  targetType : String
  targetName : String
  directDependents : Nat
  directDependencies : Nat
  totalAffected : Nat
  riskScore : ℤ
  riskLevel : String
  dependents : List Dep
  dependencies : List Dep
deriving DecidableEq

/-- `GraphAnalyzer.analyzeImpact(nodeId, depth)`; `none` models the
`{ error: ... }` return for a missing node. -/
def analyzeImpact (g : SemanticGraph) (nid : String) (depth : Nat) :
    Option ImpactResult :=
  match mlookup g.nodes nid with
  | none => none
  | some node =>
    let backward := (getBackwardDependencies g depth nid []).1
    let forward := (getForwardDependencies g depth nid []).1
    let affectedCount := backward.length + forward.length
    let riskScore := _calculateRiskScore node.type affectedCount
    some
      { targetId := node.id
        targetType := node.type
        targetName := node.name
        directDependents := backward.length
        directDependencies := forward.length
        totalAffected := affectedCount
        riskScore := riskScore
        riskLevel := _riskScoreTolevel riskScore
        dependents := backward.take 10
        dependencies := forward.take 10 }

/-- Witness for C9 at a concrete failing call on the empty graph. -/
theorem addEdge_atomic_on_error_witness :
    (addEdge SemanticGraph.empty "method:A.m" "method:B.n" "calls" EdgeMeta.empty).2 =
      Except.error "Cannot add edge: nodes method:A.m or method:B.n do not exist" ∧
    (addEdge SemanticGraph.empty "method:A.m" "method:B.n" "calls" EdgeMeta.empty).1 =
      SemanticGraph.empty :=
  ⟨rfl, addEdge_atomic_on_error SemanticGraph.empty "method:A.m" "method:B.n" "calls"
    EdgeMeta.empty "Cannot add edge: nodes method:A.m or method:B.n do not exist" rfl⟩

/-- C4: `analyzeImpact` computes
`riskScore = round(baseWeight(kind) * min(affectedCount/5, 3))` with
`affectedCount` the total length of the backward and forward dependency
lists at the given depth, the base-weight table is ordered
sobject > class > method > field, and the risk level bands are
low < 5 ≤ medium < 15 ≤ high < 30 ≤ critical. -/
theorem analyzeImpact_risk_spec :
    (∀ (g : SemanticGraph) (nid : String) (depth : Nat) (node : Node),
      mlookup g.nodes nid = some node →
      ∃ r, analyzeImpact g nid depth = some r ∧
        r.riskScore =
          round (baseScoreFor node.type *
            min ((((getBackwardDependencies g depth nid []).1.length +
              (getForwardDependencies g depth nid []).1.length : Nat) : ℚ) / 5) 3) ∧
        r.riskLevel = _riskScoreTolevel r.riskScore ∧
        r.totalAffected =
          (getBackwardDependencies g depth nid []).1.length +
            (getForwardDependencies g depth nid []).1.length) ∧
    (baseScoreFor "sobject" > baseScoreFor "class" ∧
      baseScoreFor "class" > baseScoreFor "method" ∧
      baseScoreFor "method" > baseScoreFor "field") ∧
    (∀ sc : ℤ,
      (_riskScoreTolevel sc = "low" ↔ sc < 5) ∧
      (_riskScoreTolevel sc = "medium" ↔ 5 ≤ sc ∧ sc < 15) ∧
      (_riskScoreTolevel sc = "high" ↔ 15 ≤ sc ∧ sc < 30) ∧
      (_riskScoreTolevel sc = "critical" ↔ 30 ≤ sc)) := by
  refine ⟨?_, ?_, ?_⟩
  · intro g nid depth node h
    unfold analyzeImpact
    rw [h]
    exact ⟨_, rfl, rfl, rfl, rfl⟩
  · refine ⟨?_, ?_, ?_⟩ <;> decide
  · intro sc
    unfold _riskScoreTolevel
    split_ifs with h1 h2 h3 <;>
      refine ⟨⟨?_, ?_⟩, ⟨?_, ?_⟩, ⟨?_, ?_⟩, ⟨?_, ?_⟩⟩ <;>
      first
        | (intro hx; exact absurd hx (by decide))
        | (intro hx; omega)
        | (intro hx; rfl)

/-- A one-node graph used to witness the `analyzeImpact` theorem. -/
def impactWitnessGraph : SemanticGraph :=
  (addNode SemanticGraph.empty "method" "A.m" Metadata.empty).1

/-- Witness for C4 on a concrete one-node graph. -/
theorem analyzeImpact_risk_spec_witness :
    mlookup impactWitnessGraph.nodes "method:A.m" =
      some ⟨"method:A.m", "method", "A.m", Metadata.empty⟩ ∧
    ∃ r, analyzeImpact impactWitnessGraph "method:A.m" 2 = some r ∧
      r.riskScore =
        round (baseScoreFor "method" *
          min ((((getBackwardDependencies impactWitnessGraph 2 "method:A.m" []).1.length +
            (getForwardDependencies impactWitnessGraph 2 "method:A.m" []).1.length : Nat) : ℚ) / 5) 3) ∧
      r.riskLevel = _riskScoreTolevel r.riskScore ∧
      r.totalAffected =
        (getBackwardDependencies impactWitnessGraph 2 "method:A.m" []).1.length +
          (getForwardDependencies impactWitnessGraph 2 "method:A.m" []).1.length :=
  ⟨rfl, analyzeImpact_risk_spec.1 impactWitnessGraph "method:A.m" 2
    ⟨"method:A.m", "method", "A.m", Metadata.empty⟩ rfl⟩

/-! ### Issue detection -/

/-- An entry of `detectIssues`' result lists (`{ method: name, id }` /
`{ field: name, id }`). -/
structure IssueEntry where
  name : String
  id : String
deriving DecidableEq

/-- Result of `GraphAnalyzer.detectIssues`, dead-method and unused-field
parts.  The source also returns `cycles` (`graph.detectCycles().slice(0,5)`)
and an always-empty `highComplexity` list; the cycle detector is a separate
traversal no claim depends on and is not modelled. -/
structure Issues where
  deadMethods : List IssueEntry
  unusedFields : List IssueEntry
deriving DecidableEq

/-- `GraphAnalyzer.detectIssues`: a method node is dead when it has no
incoming `calls` edge and exactly one incoming edge; a field node is unused
when it has exactly one incoming edge. -/
def detectIssues (g : SemanticGraph) : Issues :=
  let methodNodes := (g.nodes.map Prod.snd).filter (fun n => n.type == "method")
  let deadMethods := (methodNodes.filter (fun m =>
      let inc := (mlookup g.incoming m.id).getD []
      let hasCallers := inc.any (fun e => e.type == "calls")
      !hasCallers && inc.length == 1)).map
    (fun m => (⟨m.name, m.id⟩ : IssueEntry))
  let fieldNodes := (g.nodes.map Prod.snd).filter (fun n => n.type == "field")
  let unusedFields := (fieldNodes.filter (fun f =>
      ((mlookup g.incoming f.id).getD []).length == 1)).map
    (fun f => (⟨f.name, f.id⟩ : IssueEntry))
  ⟨deadMethods, unusedFields⟩

/-- C8: on any graph built by `addNode`/`addEdge` calls, a method node is
reported dead exactly when it has exactly one incoming edge and no incoming
`calls` edge, and a field node is reported unused exactly when it has
exactly one incoming edge. -/
theorem detectIssues_dead_unused_iff (ops : List GraphOp) (k : String) (node : Node)
    (h : mlookup (runOps ops).nodes k = some node) :
    (node.type = "method" →
      ((⟨node.name, node.id⟩ : IssueEntry) ∈ (detectIssues (runOps ops)).deadMethods ↔
        (((mlookup (runOps ops).incoming node.id).getD []).length = 1 ∧
          ∀ e ∈ (mlookup (runOps ops).incoming node.id).getD [], e.type ≠ "calls"))) ∧
    (node.type = "field" →
      ((⟨node.name, node.id⟩ : IssueEntry) ∈ (detectIssues (runOps ops)).unusedFields ↔
        ((mlookup (runOps ops).incoming node.id).getD []).length = 1)) := by
  have hinv := InvG_runOps ops
  have hidk : node.id = k := hinv.nodeIdOk k node h
  constructor
  · intro hty
    constructor
    · intro hmem
      simp only [detectIssues, List.mem_map, List.mem_filter] at hmem
      obtain ⟨m, ⟨⟨hmval, hmty⟩, hmpred⟩, hmeq⟩ := hmem
      obtain ⟨⟨k1, m1⟩, hmem1, hsnd⟩ := hmval
      dsimp at hsnd
      subst hsnd
      have hm1 : mlookup (runOps ops).nodes k1 = some m1 := mlookup_of_mem hinv.nodesKeys hmem1
      have hmid : m1.id = k1 := hinv.nodeIdOk k1 m1 hm1
      injection hmeq with hname hid
      have hk1 : k1 = k := by rw [← hmid, hid, hidk]
      rw [hk1] at hm1
      rw [h] at hm1
      injection hm1 with hm1
      subst hm1
      rw [Bool.and_eq_true, Bool.not_eq_true', List.any_eq_false] at hmpred
      obtain ⟨hnoc, hlen⟩ := hmpred
      refine ⟨by simpa using hlen, ?_⟩
      intro e he
      have := hnoc e he
      simpa using this
    · intro ⟨hlen, hnoc⟩
      simp only [detectIssues, List.mem_map, List.mem_filter]
      refine ⟨node, ⟨⟨?_, ?_⟩, ?_⟩, rfl⟩
      · exact ⟨(k, node), mlookup_mem h, rfl⟩
      · simpa using hty
      · rw [Bool.and_eq_true, Bool.not_eq_true', List.any_eq_false]
        refine ⟨?_, by simpa using hlen⟩
        intro e he
        simpa using hnoc e he
  · intro hty
    constructor
    · intro hmem
      simp only [detectIssues, List.mem_map, List.mem_filter] at hmem
      obtain ⟨m, ⟨⟨hmval, hmty⟩, hmpred⟩, hmeq⟩ := hmem
      obtain ⟨⟨k1, m1⟩, hmem1, hsnd⟩ := hmval
      dsimp at hsnd
      subst hsnd
      have hm1 : mlookup (runOps ops).nodes k1 = some m1 := mlookup_of_mem hinv.nodesKeys hmem1
      have hmid : m1.id = k1 := hinv.nodeIdOk k1 m1 hm1
      injection hmeq with hname hid
      have hk1 : k1 = k := by rw [← hmid, hid, hidk]
      rw [hk1] at hm1
      rw [h] at hm1
      injection hm1 with hm1
      subst hm1
      simpa using hmpred
    · intro hlen
      simp only [detectIssues, List.mem_map, List.mem_filter]
      refine ⟨node, ⟨⟨?_, ?_⟩, ?_⟩, rfl⟩
      · exact ⟨(k, node), mlookup_mem h, rfl⟩
      · simpa using hty
      · simpa using hlen

/-- The build sequence for the C8 witness: one class containing one method
that is never called. -/
def deadMethodOps : List GraphOp :=
  [GraphOp.node "class" "C" Metadata.empty,
   GraphOp.node "method" "C.m" Metadata.empty,
   GraphOp.edge "class:C" "method:C.m" "contains" (EdgeMeta.kindMeta "method")]

/-- Witness for C8: a sole contained method that is never called satisfies
the right-hand side, and the theorem reports it dead. -/
theorem detectIssues_dead_unused_iff_witness :
    mlookup (runOps deadMethodOps).nodes "method:C.m" =
      some ⟨"method:C.m", "method", "C.m", Metadata.empty⟩ ∧
    ((("method" : String) = "method" →
      ((⟨"C.m", "method:C.m"⟩ : IssueEntry) ∈
          (detectIssues (runOps deadMethodOps)).deadMethods ↔
        (((mlookup (runOps deadMethodOps).incoming "method:C.m").getD []).length = 1 ∧
          ∀ e ∈ (mlookup (runOps deadMethodOps).incoming "method:C.m").getD [],
            e.type ≠ "calls"))) ∧
    (("method" : String) = "field" →
      ((⟨"C.m", "method:C.m"⟩ : IssueEntry) ∈
          (detectIssues (runOps deadMethodOps)).unusedFields ↔
        ((mlookup (runOps deadMethodOps).incoming "method:C.m").getD []).length = 1))) :=
  ⟨rfl, detectIssues_dead_unused_iff deadMethodOps "method:C.m"
    ⟨"method:C.m", "method", "C.m", Metadata.empty⟩ rfl⟩

/-! ### Reference resolver: impact map -/

/-- Reference-resolver state relevant to the impact map: the derived call
graph and reverse call graph (`"Class.method"` keys to lists of keys). -/
structure ReferenceResolverState where
  callGraph : List (String × List String)
  reverseCallGraph : List (String × List String)
deriving DecidableEq

/-- `ReferenceResolver.getCallers(className, methodName)`. -/
def getCallers (r : ReferenceResolverState) (className methodName : String) :
    List String :=
  (mlookup r.reverseCallGraph (className ++ "." ++ methodName)).getD []

/-- JavaScript `s.split('.')` (empty pieces preserved). -/
def jsSplitDot (s : String) : List String :=
  (s.data.splitOn '.').map (fun l => String.mk l)

/-- The class/method key rebuilt from the first two pieces of
`target.split('.')`, as `buildImpactMap`'s destructuring does.  (When the
split yields fewer than two pieces the JavaScript destructuring produces
`undefined`; the model uses `""`, and the theorems below only apply to
targets the rebuilt key reproduces exactly.) -/
def keyFor (t : String) : String :=
  (jsSplitDot t).headD "" ++ "." ++ ((jsSplitDot t).drop 1).headD ""

/-- The result record of `buildImpactMap`. -/
structure ImpactMap where
  target : String
  directImpact : List String
  indirectImpact : List String
  riskLevel : String
deriving DecidableEq

/-- `Set.prototype.add` on an insertion-ordered set rendered as a list. -/
def dedupAdd (acc : List String) (x : String) : List String :=
  if acc.contains x then acc else acc ++ [x]

/-- `ReferenceResolver.buildImpactMap(target)`: one hop of callers as direct
impact, deduplicated callers-of-callers as indirect impact, and fixed risk
thresholds on the total count. -/
def buildImpactMap (r : ReferenceResolverState) (target : String) : ImpactMap :=
  let parts := jsSplitDot target
  let className := parts.headD ""
  let methodName := (parts.drop 1).headD ""
  let callers := getCallers r className methodName
  let indirect := callers.foldl
    (fun acc caller =>
      let cparts := jsSplitDot caller
      (getCallers r (cparts.headD "") ((cparts.drop 1).headD "")).foldl dedupAdd acc)
    []
  let totalImpact := callers.length + indirect.length
  let riskLevel :=
    if totalImpact > 10 then "critical"
    else if totalImpact > 5 then "high"
    else if totalImpact > 2 then "medium"
    else "low"
  ⟨target, callers, indirect, riskLevel⟩

theorem mem_dedupAdd (acc : List String) (x y : String) :
    y ∈ dedupAdd acc x ↔ y ∈ acc ∨ y = x := by
  unfold dedupAdd
  by_cases h : acc.contains x
  · rw [if_pos h]
    constructor
    · exact Or.inl
    · rintro (hy | rfl)
      · exact hy
      · exact List.elem_iff.mp h
  · rw [if_neg h]
    simp

theorem dedupAdd_nodup (acc : List String) (x : String) (h : acc.Nodup) :
    (dedupAdd acc x).Nodup := by
  unfold dedupAdd
  by_cases hc : acc.contains x
  · rw [if_pos hc]; exact h
  · rw [if_neg hc]
    refine List.Nodup.append h (by simp) ?_
    intro a ha hb
    rw [List.mem_singleton] at hb
    subst hb
    exact hc (List.elem_iff.mpr ha)

theorem mem_foldl_dedupAdd (l : List String) :
    ∀ (acc : List String) (y : String), y ∈ l.foldl dedupAdd acc ↔ y ∈ acc ∨ y ∈ l := by
  induction l with
  | nil => simp
  | cons a rest ih =>
    intro acc y
    rw [List.foldl_cons, ih, mem_dedupAdd, List.mem_cons, or_assoc]

theorem foldl_dedupAdd_nodup (l : List String) :
    ∀ acc : List String, acc.Nodup → (l.foldl dedupAdd acc).Nodup := by
  induction l with
  | nil => intro acc h; exact h
  | cons a rest ih =>
    intro acc h
    rw [List.foldl_cons]
    exact ih _ (dedupAdd_nodup acc a h)

theorem mem_foldl_inner (g : String → List String) (l : List String) :
    ∀ (acc : List String) (y : String),
      y ∈ l.foldl (fun acc c => (g c).foldl dedupAdd acc) acc ↔
        y ∈ acc ∨ ∃ c ∈ l, y ∈ g c := by
  induction l with
  | nil => simp
  | cons a rest ih =>
    intro acc y
    rw [List.foldl_cons, ih, mem_foldl_dedupAdd]
    constructor
    · rintro ((hy | hy) | ⟨c, hc, hy⟩)
      · exact Or.inl hy
      · exact Or.inr ⟨a, List.mem_cons_self a rest, hy⟩
      · exact Or.inr ⟨c, List.mem_cons_of_mem a hc, hy⟩
    · rintro (hy | ⟨c, hc, hy⟩)
      · exact Or.inl (Or.inl hy)
      · rcases List.mem_cons.mp hc with rfl | hc
        · exact Or.inl (Or.inr hy)
        · exact Or.inr ⟨c, hc, hy⟩

theorem foldl_inner_nodup (g : String → List String) (l : List String) :
    ∀ acc : List String, acc.Nodup →
      (l.foldl (fun acc c => (g c).foldl dedupAdd acc) acc).Nodup := by
  induction l with
  | nil => intro acc h; exact h
  | cons a rest ih =>
    intro acc h
    rw [List.foldl_cons]
    exact ih _ (foldl_dedupAdd_nodup (g a) acc h)

/-- The reverse call graph of the C5 scenario: method `CA.a` called only by
`CB.b`, and `CB.b` called only by `CC.c`. -/
def chainResolver : ReferenceResolverState :=
  ⟨[], [("CA.a", ["CB.b"]), ("CB.b", ["CC.c"])]⟩

/-- C5: `buildImpactMap` returns the one-hop caller list as direct impact,
the deduplicated flat set of callers-of-callers as indirect impact, and a
risk level fixed by the total count (low ≤ 2 < medium ≤ 5 < high ≤ 10 <
critical); on the concrete chain `A ← B ← C` it returns direct `[B]`,
indirect `[C]`, level `low`. -/
theorem buildImpactMap_spec :
    (∀ (r : ReferenceResolverState) (target : String),
      keyFor target = target →
      (buildImpactMap r target).directImpact =
        (mlookup r.reverseCallGraph target).getD [] ∧
      (buildImpactMap r target).indirectImpact.Nodup ∧
      (∀ x, x ∈ (buildImpactMap r target).indirectImpact ↔
        ∃ caller ∈ (buildImpactMap r target).directImpact,
          x ∈ (mlookup r.reverseCallGraph (keyFor caller)).getD []) ∧
      (((buildImpactMap r target).directImpact.length +
          (buildImpactMap r target).indirectImpact.length ≤ 2 →
          (buildImpactMap r target).riskLevel = "low") ∧
        (3 ≤ (buildImpactMap r target).directImpact.length +
            (buildImpactMap r target).indirectImpact.length ∧
          (buildImpactMap r target).directImpact.length +
            (buildImpactMap r target).indirectImpact.length ≤ 5 →
          (buildImpactMap r target).riskLevel = "medium") ∧
        (6 ≤ (buildImpactMap r target).directImpact.length +
            (buildImpactMap r target).indirectImpact.length ∧
          (buildImpactMap r target).directImpact.length +
            (buildImpactMap r target).indirectImpact.length ≤ 10 →
          (buildImpactMap r target).riskLevel = "high") ∧
        (10 < (buildImpactMap r target).directImpact.length +
            (buildImpactMap r target).indirectImpact.length →
          (buildImpactMap r target).riskLevel = "critical"))) ∧
    buildImpactMap chainResolver "CA.a" =
      ⟨"CA.a", ["CB.b"], ["CC.c"], "low"⟩ := by
  constructor
  · intro r target hk
    have hdirect : (buildImpactMap r target).directImpact =
        (mlookup r.reverseCallGraph (keyFor target)).getD [] := rfl
    refine ⟨by rw [hdirect, hk], ?_, ?_, ?_⟩
    · exact foldl_inner_nodup
        (fun caller => (mlookup r.reverseCallGraph (keyFor caller)).getD [])
        (buildImpactMap r target).directImpact [] List.nodup_nil
    · intro x
      have := mem_foldl_inner
        (fun caller => (mlookup r.reverseCallGraph (keyFor caller)).getD [])
        (buildImpactMap r target).directImpact [] x
      simpa using this
    · have hlevel : (buildImpactMap r target).riskLevel =
          (if (buildImpactMap r target).directImpact.length +
              (buildImpactMap r target).indirectImpact.length > 10 then "critical"
            else if (buildImpactMap r target).directImpact.length +
              (buildImpactMap r target).indirectImpact.length > 5 then "high"
            else if (buildImpactMap r target).directImpact.length +
              (buildImpactMap r target).indirectImpact.length > 2 then "medium"
            else "low") := rfl
      refine ⟨?_, ?_, ?_, ?_⟩ <;> intro hb <;> rw [hlevel] <;>
        split_ifs with h1 h2 h3 <;> first | rfl | omega
  · decide

/-- Witness for C5: the theorem applied to the concrete `A ← B ← C` chain. -/
theorem buildImpactMap_spec_witness :
    (buildImpactMap chainResolver "CA.a").directImpact =
      (mlookup chainResolver.reverseCallGraph "CA.a").getD [] ∧
    (buildImpactMap chainResolver "CA.a").indirectImpact.Nodup ∧
    (∀ x, x ∈ (buildImpactMap chainResolver "CA.a").indirectImpact ↔
      ∃ caller ∈ (buildImpactMap chainResolver "CA.a").directImpact,
        x ∈ (mlookup chainResolver.reverseCallGraph (keyFor caller)).getD []) ∧
    (((buildImpactMap chainResolver "CA.a").directImpact.length +
        (buildImpactMap chainResolver "CA.a").indirectImpact.length ≤ 2 →
        (buildImpactMap chainResolver "CA.a").riskLevel = "low") ∧
      (3 ≤ (buildImpactMap chainResolver "CA.a").directImpact.length +
          (buildImpactMap chainResolver "CA.a").indirectImpact.length ∧
        (buildImpactMap chainResolver "CA.a").directImpact.length +
          (buildImpactMap chainResolver "CA.a").indirectImpact.length ≤ 5 →
        (buildImpactMap chainResolver "CA.a").riskLevel = "medium") ∧
      (6 ≤ (buildImpactMap chainResolver "CA.a").directImpact.length +
          (buildImpactMap chainResolver "CA.a").indirectImpact.length ∧
        (buildImpactMap chainResolver "CA.a").directImpact.length +
          (buildImpactMap chainResolver "CA.a").indirectImpact.length ≤ 10 →
        (buildImpactMap chainResolver "CA.a").riskLevel = "high") ∧
      (10 < (buildImpactMap chainResolver "CA.a").directImpact.length +
          (buildImpactMap chainResolver "CA.a").indirectImpact.length →
        (buildImpactMap chainResolver "CA.a").riskLevel = "critical")) :=
  buildImpactMap_spec.1 chainResolver "CA.a" (by decide)

/-! ### Reference resolver: bare-call deny list -/

/-- JavaScript `String.prototype.toLowerCase` restricted to the ASCII range,
which covers every identifier the bare-call regex `\\w+` can match. -/
def jsToLower (s : String) : String := String.mk (s.data.map Char.toLower)

/-- The literal deny list from `ReferenceResolver._isBuiltInMethod`. -/
def builtIns : List String :=
  ["system", "debug", "assert", "assertEquals", "assertNotEquals",
   "print", "println", "valueOf", "parse", "format",
   "add", "remove", "get", "set", "size", "contains", "clear", "sort",
   "substring", "length", "trim", "split", "replace", "toUpperCase", "toLowerCase",
   "toString", "equals", "hashCode", "clone", "wait", "notify"]

/-- `ReferenceResolver._isBuiltInMethod(methodName)`:
`builtIns.has(methodName.toLowerCase())`. -/
def _isBuiltInMethod (methodName : String) : Bool :=
  builtIns.contains (jsToLower methodName)

/-- Case-insensitive match against the deny list, the comparison the spec
describes: the call name equals some deny entry up to case. -/
def matchesDenyListCI (n : String) : Bool :=
  builtIns.any (fun b => jsToLower n == jsToLower b)

/-- A call discovered by the resolver (the `line`/`arguments` attributes of
the source record carry no decision logic and are omitted). -/
structure ResolvedCall where
  targetMethod : String
  ctype : String
deriving DecidableEq

/-- The loop body of pattern 3 of `_extractMethodCallsFromAST`: skip
self-references, filter the deny list, and resolve against the containing
unit's declared method names as a `local` call. -/
def pattern3Step (className methodName : String) (classMethodNames : List String)
    (calls : List ResolvedCall) (n : String) : List ResolvedCall :=
  if n = methodName then calls
  else if _isBuiltInMethod n then calls
  else if classMethodNames.contains n then
    calls ++ [⟨className ++ "." ++ n, "local"⟩]
  else calls

/-- Pattern 3 of `_extractMethodCallsFromAST` (unqualified bare calls):
`matchedNames` stands for the successive identifiers matched by the
bare-call regex over the method body, in order. -/
def pattern3Calls (className methodName : String) (classMethodNames : List String)
    (matchedNames : List String) : List ResolvedCall :=
  matchedNames.foldl (pattern3Step className methodName classMethodNames) []

theorem string_append_right_inj {a b c : String} (h : a ++ b = a ++ c) : b = c := by
  have hd : a.data ++ b.data = a.data ++ c.data := congrArg String.data h
  have hbc := List.append_cancel_left hd
  cases b
  cases c
  exact congrArg String.mk hbc

theorem pattern3Calls_mem (className methodName : String)
    (classMethodNames : List String) :
    ∀ (matchedNames : List String) (acc : List ResolvedCall) (c : ResolvedCall),
      c ∈ matchedNames.foldl (pattern3Step className methodName classMethodNames) acc →
      c ∈ acc ∨ ∃ m, _isBuiltInMethod m = false ∧
        c.targetMethod = className ++ "." ++ m := by
  intro matchedNames
  induction matchedNames with
  | nil => intro acc c hc; exact Or.inl hc
  | cons a rest ih =>
    intro acc c hc
    rw [List.foldl_cons] at hc
    rcases ih _ c hc with hacc | hex
    · unfold pattern3Step at hacc
      split_ifs at hacc with h1 h2 h3
      · exact Or.inl hacc
      · exact Or.inl hacc
      · rcases List.mem_append.mp hacc with hl | hr
        · exact Or.inl hl
        · rw [List.mem_singleton] at hr
          subst hr
          exact Or.inr ⟨a, by simpa using h2, rfl⟩
      · exact Or.inl hacc
    · exact Or.inr hex

/-- Counterexample for C6 as stated: `assertEquals` matches the deny-list
entry `assertEquals` under case-insensitive comparison, yet
`_isBuiltInMethod` rejects it (the probe is lowercased but the entry is
not), so the bare call is resolved and produces a call. -/
theorem pattern3_denylist_counterexample :
    matchesDenyListCI "assertEquals" = true ∧
    _isBuiltInMethod "assertEquals" = false ∧
    pattern3Calls "C" "caller" ["assertEquals"] ["assertEquals"] =
      [⟨"C.assertEquals", "local"⟩] :=
  ⟨by decide, by decide, by decide⟩

/-- C6 (amended): a bare call is suppressed by the deny list exactly when
its lowercased name is literally one of the deny entries; for every such
name no call targeting it is produced by the bare-call pass, even when the
containing unit declares a method of that name. -/
theorem pattern3_denylist_lowercase (className methodName n : String)
    (classMethodNames matchedNames : List String)
    (hmem : n ∈ matchedNames)
    (hdeny : builtIns.contains (jsToLower n) = true)
    (hdecl : n ∈ classMethodNames) :
    ∀ c ∈ pattern3Calls className methodName classMethodNames matchedNames,
      c.targetMethod ≠ className ++ "." ++ n := by
  intro c hc hceq
  rcases pattern3Calls_mem className methodName classMethodNames matchedNames [] c hc with
    hacc | ⟨m, hm, hcat⟩
  · simp at hacc
  · have h2 : className ++ "." ++ m = className ++ "." ++ n := by rw [← hcat, ← hceq]
    have hmn : m = n := string_append_right_inj h2
    rw [hmn] at hm
    have hm' : _isBuiltInMethod n = true := hdeny
    rw [hm'] at hm
    cases hm

/-- Witness for the amended C6 at the lowercase deny entry `add`, declared
on the unit and matched as a bare call. -/
theorem pattern3_denylist_lowercase_witness :
    ("add" ∈ ["add", "save"] ∧ builtIns.contains (jsToLower "add") = true ∧
      "add" ∈ ["add", "save"]) ∧
    ∀ c ∈ pattern3Calls "C" "caller" ["add", "save"] ["add", "save"],
      c.targetMethod ≠ "C" ++ "." ++ "add" :=
  ⟨⟨by decide, by decide, by decide⟩,
    pattern3_denylist_lowercase "C" "caller" "add" ["add", "save"] ["add", "save"]
      (by decide) (by decide) (by decide)⟩

/-! ### Symbol table: `extractBaseType` -/

/-- The character class `[A-Za-z.]` of the generic-prefix regex. -/
def isGenPrefixChar (c : Char) : Bool := c.isAlpha || c == '.'

/-- The character class `[A-Za-z0-9_]` of the generic-argument regex. -/
def isWordChar (c : Char) : Bool := c.isAlphanum || c == '_'

/-- `base.match(/^[A-Za-z.]+<([A-Za-z0-9_]+)>$/)`, returning the capture
group.  Because the character classes exclude `<` and `>`, the regex admits
no backtracking and is equivalent to this greedy scan. -/
def genericInner (l : List Char) : Option (List Char) :=
  let p := l.takeWhile isGenPrefixChar
  let rest := l.drop p.length
  match rest with
  | '<' :: rest1 =>
    if p.isEmpty then none
    else
      let inner := rest1.takeWhile isWordChar
      let rest2 := rest1.drop inner.length
      if inner.isEmpty then none
      else if rest2 = ['>'] then some inner else none
  | _ => none

/-- `typeStr.replace(/\\[\\]$/, '')`: drop one trailing `[]`. -/
def stripArray (l : List Char) : List Char :=
  if l.reverse.take 2 = [']', '['] then (l.reverse.drop 2).reverse else l

/-- Whether the string ends in the array marker `[]` (the condition under
which the replace above fires). -/
def hasArraySuffix (s : String) : Bool :=
  decide (s.data.reverse.take 2 = [']', '['])

/-- Whether the string is well-formed single-argument generic syntax, i.e.
the unwrap regex matches it. -/
def isWellFormedGeneric (s : String) : Bool := (genericInner s.data).isSome

/-- `SymbolTable.extractBaseType(typeStr)`: `null` (here `none`) on a falsy
argument, else strip one trailing array marker, then unwrap one level of a
generic wrapper when the regex matches, else return the string unchanged. -/
def extractBaseType (typeStr : String) : Option String :=
  if typeStr = "" then none
  else
    let base := stripArray typeStr.data
    match genericInner base with
    | some inner => some (String.mk inner)
    | none => some (String.mk base)

theorem stripArray_of_no_suffix (s : String) (h : hasArraySuffix s = false) :
    stripArray s.data = s.data := by
  unfold hasArraySuffix at h
  unfold stripArray
  rw [if_neg (of_decide_eq_false h)]

/-- Counterexample for C7 as stated: the empty string is neither array nor
generic syntax, yet `extractBaseType` returns `null` rather than the string
unchanged, because the falsy guard catches `''`. -/
theorem extractBaseType_empty_counterexample :
    hasArraySuffix "" = false ∧ isWellFormedGeneric "" = false ∧
    extractBaseType "" = none ∧ extractBaseType "" ≠ some "" :=
  ⟨by decide, by decide, by decide, by decide⟩

/-- C7 (amended): the two unwrap examples and the array example hold, and
every non-empty input that is neither array syntax nor well-formed
single-argument generic syntax (malformed generics included) is returned
unchanged without an error; the empty string alone falls into the falsy
guard and yields `null`. -/
theorem extractBaseType_spec :
    extractBaseType "List<Account>" = some "Account" ∧
    extractBaseType "Account[]" = some "Account" ∧
    extractBaseType "Account" = some "Account" ∧
    ∀ s : String, s ≠ "" → hasArraySuffix s = false → isWellFormedGeneric s = false →
      extractBaseType s = some s := by
  refine ⟨by decide, by decide, by decide, ?_⟩
  intro s hne hsuf hgen
  unfold extractBaseType
  rw [if_neg hne, stripArray_of_no_suffix s hsuf]
  have hg : genericInner s.data = none := by
    unfold isWellFormedGeneric at hgen
    exact Option.not_isSome_iff_eq_none.mp (by simp [hgen])
  simp only [hg]

/-- Witness for the amended C7 at a malformed two-argument generic. -/
theorem extractBaseType_spec_witness :
    ("Map<String,Account>" ≠ "" ∧ hasArraySuffix "Map<String,Account>" = false ∧
      isWellFormedGeneric "Map<String,Account>" = false) ∧
    extractBaseType "Map<String,Account>" = some "Map<String,Account>" :=
  ⟨⟨by decide, by decide, by decide⟩,
    extractBaseType_spec.2.2.2 "Map<String,Account>" (by decide) (by decide) (by decide)⟩

/-! ### Building the graph from a parsed unit -/

/-- A parsed SOQL read operation (`{ object, fields, line }`). -/
structure SoqlQuery where
  object : String
  fields : List QField
  line : Nat
deriving DecidableEq

/-- A parsed DML operation record. -/
structure DmlOp where
  type : String
  target : String
  line : Nat
  object : Option String
  inferredType : Option String
deriving DecidableEq

/-- A parsed method record as consumed by `addMethodNode`. -/
structure ParsedMethod where
  name : String
  returnType : String
  parameters : List (String × String)
  modifiers : List String
  complexity : Nat
  line : Nat
  soql : List SoqlQuery
  dml : List DmlOp
deriving DecidableEq

/-- A parsed field record as consumed by `addFieldNode`. -/
structure ParsedField where
  name : String
  type : String
  modifiers : List String
  initialValue : Option String
deriving DecidableEq

/-- A parsed declaration unit as consumed by `addClassNode`. -/
structure ParsedClass where
  name : String
  file : String
  type : String
  modifiers : List String
  implementsL : List String
  extendsS : Option String
  methods : List ParsedMethod
  fields : List ParsedField
deriving DecidableEq

/-- `addEdge` in exception-threading form for use inside the builders. -/
def addEdgeE (s : SemanticGraph) (f t ty : String) (md : EdgeMeta) :
    Except String SemanticGraph :=
  let r := addEdge s f t ty md
  match r.2 with
  | .ok _ => .ok r.1
  | .error e => .error e

/-- The inner field loop of `addSOQLReferences`: for each string entry, add
an `sfield` node and an `accesses_field` edge from the method. -/
def sfieldLoop (methodId object : String) :
    SemanticGraph → List QField → Except String SemanticGraph
  | s, [] => .ok s
  | s, QField.str fname :: rest => do
      let r := addNode s "sfield" (object ++ "." ++ fname) (Metadata.sfieldMeta object fname)
      let s ← addEdgeE r.1 methodId r.2 "accesses_field" (EdgeMeta.accessMode "read")
      sfieldLoop methodId object s rest
  | s, QField.nonstring :: rest => sfieldLoop methodId object s rest

/-- The query loop of `addSOQLReferences`: add the queried `sobject` node, a
`reads` edge from the method, then the accessed-field entries. -/
def soqlLoop (methodId : String) :
    SemanticGraph → List SoqlQuery → Except String SemanticGraph
  | s, [] => .ok s
  | s, q :: rest => do
      let r := addNode s "sobject" q.object Metadata.empty
      let s ← addEdgeE r.1 methodId r.2 "reads" (EdgeMeta.readsMeta q.fields q.line)
      let s ← sfieldLoop methodId q.object s q.fields
      soqlLoop methodId s rest

/-- `SemanticGraph.addSOQLReferences(methodId, method)`. -/
def addSOQLReferences (s : SemanticGraph) (methodId : String) (m : ParsedMethod) :
    Except String SemanticGraph :=
  soqlLoop methodId s m.soql

/-- The loop of `addDMLReferences`: for each operation with a truthy
`object`, add the `sobject` node and an operation-typed edge. -/
def dmlLoop (methodId : String) :
    SemanticGraph → List DmlOp → Except String SemanticGraph
  | s, [] => .ok s
  | s, d :: rest =>
      match d.object with
      | some obj =>
        if obj = "" then dmlLoop methodId s rest
        else do
          let r := addNode s "sobject" obj Metadata.empty
          let s ← addEdgeE r.1 methodId r.2 d.type (EdgeMeta.dmlMeta d.target d.line)
          dmlLoop methodId s rest
      | none => dmlLoop methodId s rest

/-- `SemanticGraph.addDMLReferences(methodId, method)`. -/
def addDMLReferences (s : SemanticGraph) (methodId : String) (m : ParsedMethod) :
    Except String SemanticGraph :=
  dmlLoop methodId s m.dml

/-- `SemanticGraph.addMethodNode(classId, method, parentClass)`
(`addFieldAccessesInMethod` is a no-op in the source). -/
def addMethodNode (s : SemanticGraph) (classId : String) (m : ParsedMethod)
    (p : ParsedClass) : Except String (SemanticGraph × String) := do
  let key := p.name ++ "." ++ m.name
  let r := addNode s "method" key
      (Metadata.methodMeta m.returnType m.parameters m.modifiers m.complexity m.line)
  let s := { r.1 with methodNodes := mset r.1.methodNodes key r.2 }
  let s ← addEdgeE s classId r.2 "contains" (EdgeMeta.kindMeta "method")
  let s ← addSOQLReferences s r.2 m
  let s ← addDMLReferences s r.2 m
  pure (s, r.2)

/-- `SemanticGraph.addFieldNode(classId, field)`; the name prefix comes from
`this.nodes.get(classId).name`, whose absence would be a TypeError. -/
def addFieldNode (s : SemanticGraph) (classId : String) (field : ParsedField) :
    Except String (SemanticGraph × String) :=
  match mlookup s.nodes classId with
  | none => .error "TypeError: Cannot read properties of undefined"
  | some classNode => do
    let r := addNode s "field" (classNode.name ++ "." ++ field.name)
        (Metadata.fieldMeta field.type field.modifiers field.initialValue)
    let s ← addEdgeE r.1 classId r.2 "contains" (EdgeMeta.kindMeta "field")
    pure (s, r.2)

/-- A truthy `inferredType` (`if (dml.inferredType)`). -/
def dmlInferred (d : DmlOp) : Option String :=
  match d.inferredType with
  | some ty => if ty = "" then none else some ty
  | none => none

/-- The insertion-ordered set `objectsReferenced` of `addSObjectReferences`:
per method, all SOQL objects then all truthy inferred DML types,
de-duplicated keeping first occurrences. -/
def collectObjects (p : ParsedClass) : List String :=
  ((p.methods.map (fun m =>
      m.soql.map (fun q => q.object) ++ m.dml.filterMap dmlInferred)).join).foldl
    dedupAdd []

/-- The node/edge loop of `addSObjectReferences`. -/
def objLoop (classId : String) :
    SemanticGraph → List String → Except String SemanticGraph
  | s, [] => .ok s
  | s, objectName :: rest => do
      let r := addNode s "sobject" objectName (Metadata.sobjectMeta true)
      let s := { r.1 with objectNodes := mset r.1.objectNodes objectName r.2 }
      let s ← addEdgeE s classId r.2 "accesses" (EdgeMeta.kindMeta "sobject")
      objLoop classId s rest

/-- `SemanticGraph.addSObjectReferences(classId, parsedClass)`. -/
def addSObjectReferences (s : SemanticGraph) (classId : String) (p : ParsedClass) :
    Except String SemanticGraph :=
  objLoop classId s (collectObjects p)

/-- The method loop of `addClassNode`. -/
def methodsLoop (classId : String) (p : ParsedClass) :
    SemanticGraph → List ParsedMethod → Except String SemanticGraph
  | s, [] => .ok s
  | s, m :: rest => do
      let r ← addMethodNode s classId m p
      methodsLoop classId p r.1 rest

/-- The field loop of `addClassNode`. -/
def fieldsLoop (classId : String) :
    SemanticGraph → List ParsedField → Except String SemanticGraph
  | s, [] => .ok s
  | s, fld :: rest => do
      let r ← addFieldNode s classId fld
      fieldsLoop classId r.1 rest

/-- `SemanticGraph.addClassNode(parsedClass)`. -/
def addClassNode (s : SemanticGraph) (p : ParsedClass) :
    Except String (SemanticGraph × String) := do
  let r := addNode s "class" p.name
      (Metadata.classMeta p.file p.type p.modifiers p.implementsL p.extendsS)
  let s := { r.1 with classNodes := mset r.1.classNodes p.name r.2 }
  let s ← methodsLoop r.2 p s p.methods
  let s ← fieldsLoop r.2 s p.fields
  let s ← addSObjectReferences s r.2 p
  pure (s, r.2)

/-! ### C10 helper lemmas -/

/-- Node presence is monotone along the builders. -/
def NodesMono (s s' : SemanticGraph) : Prop :=
  ∀ k, (mlookup s.nodes k).isSome = true → (mlookup s'.nodes k).isSome = true

theorem except_bind_ok {α β : Type} (a : α) (f : α → Except String β) :
    ((Except.ok a : Except String α) >>= f) = f a := rfl

theorem addNode_preserves {s : SemanticGraph} {k : String} (ty n : String) (md : Metadata)
    (h : (mlookup s.nodes k).isSome = true) :
    (mlookup (addNode s ty n md).1.nodes k).isSome = true := by
  by_cases hn : (mlookup s.nodes (nodeId ty n)).isSome
  · rw [addNode_existing md hn]; exact h
  · rw [addNode_fst_nodes_fresh md (Option.not_isSome_iff_eq_none.mp hn)]
    exact mlookup_isSome_append _ h

theorem addNode_self (s : SemanticGraph) (ty n : String) (md : Metadata) :
    (mlookup (addNode s ty n md).1.nodes (addNode s ty n md).2).isSome = true := by
  rw [addNode_snd]
  by_cases hn : (mlookup s.nodes (nodeId ty n)).isSome
  · rw [addNode_existing md hn]; exact hn
  · have hnone := Option.not_isSome_iff_eq_none.mp hn
    rw [addNode_fst_nodes_fresh md hnone, mlookup_append_of_none _ hnone, mlookup_single,
      if_pos rfl]
    rfl

theorem addEdgeE_ok {s : SemanticGraph} {f t : String} (ty : String) (md : EdgeMeta)
    (hf : (mlookup s.nodes f).isSome = true) (ht : (mlookup s.nodes t).isSome = true) :
    ∃ s', addEdgeE s f t ty md = .ok s' ∧ s'.nodes = s.nodes := by
  unfold addEdgeE
  by_cases he : (mlookup s.edges (edgeId f t ty)).isSome
  · rw [addEdge_dup md hf ht he]
    exact ⟨s, rfl, rfl⟩
  · rw [addEdge_new md hf ht (Option.not_isSome_iff_eq_none.mp he)]
    exact ⟨_, rfl, rfl⟩

theorem sfieldLoop_ok (methodId object : String) :
    ∀ (fields : List QField) (s : SemanticGraph),
      (mlookup s.nodes methodId).isSome = true →
      ∃ s', sfieldLoop methodId object s fields = .ok s' ∧ NodesMono s s' := by
  intro fields
  induction fields with
  | nil => exact fun s _ => ⟨s, rfl, fun k hk => hk⟩
  | cons f rest ih =>
    intro s hm
    cases f with
    | nonstring =>
      obtain ⟨s', hs', hmono⟩ := ih s hm
      exact ⟨s', hs', hmono⟩
    | str fname =>
      have h1 : (mlookup (addNode s "sfield" (object ++ "." ++ fname)
          (Metadata.sfieldMeta object fname)).1.nodes methodId).isSome = true :=
        addNode_preserves _ _ _ hm
      have h2 := addNode_self s "sfield" (object ++ "." ++ fname)
        (Metadata.sfieldMeta object fname)
      obtain ⟨s1, hs1, hn1⟩ := addEdgeE_ok "accesses_field" (EdgeMeta.accessMode "read") h1 h2
      have hm1 : (mlookup s1.nodes methodId).isSome = true := by rw [hn1]; exact h1
      obtain ⟨s2, hrec, hmono2⟩ := ih s1 hm1
      refine ⟨s2, ?_, ?_⟩
      · show (addEdgeE (addNode s "sfield" (object ++ "." ++ fname)
            (Metadata.sfieldMeta object fname)).1 methodId
            (addNode s "sfield" (object ++ "." ++ fname)
              (Metadata.sfieldMeta object fname)).2 "accesses_field"
            (EdgeMeta.accessMode "read") >>=
          fun s => sfieldLoop methodId object s rest) = .ok s2
        rw [hs1, except_bind_ok, hrec]
      · intro k hk
        refine hmono2 k ?_
        rw [hn1]
        exact addNode_preserves _ _ _ hk

theorem soqlLoop_ok (methodId : String) :
    ∀ (qs : List SoqlQuery) (s : SemanticGraph),
      (mlookup s.nodes methodId).isSome = true →
      ∃ s', soqlLoop methodId s qs = .ok s' ∧ NodesMono s s' := by
  intro qs
  induction qs with
  | nil => exact fun s _ => ⟨s, rfl, fun k hk => hk⟩
  | cons q rest ih =>
    intro s hm
    have h1 : (mlookup (addNode s "sobject" q.object Metadata.empty).1.nodes
        methodId).isSome = true := addNode_preserves _ _ _ hm
    have h2 := addNode_self s "sobject" q.object Metadata.empty
    obtain ⟨s1, hs1, hn1⟩ := addEdgeE_ok "reads" (EdgeMeta.readsMeta q.fields q.line) h1 h2
    have hm1 : (mlookup s1.nodes methodId).isSome = true := by rw [hn1]; exact h1
    obtain ⟨s2, hs2, hmono2⟩ := sfieldLoop_ok methodId q.object q.fields s1 hm1
    have hm2 : (mlookup s2.nodes methodId).isSome = true := hmono2 methodId hm1
    obtain ⟨s3, hrec, hmono3⟩ := ih s2 hm2
    refine ⟨s3, ?_, ?_⟩
    · show (addEdgeE (addNode s "sobject" q.object Metadata.empty).1 methodId
          (addNode s "sobject" q.object Metadata.empty).2 "reads"
          (EdgeMeta.readsMeta q.fields q.line) >>=
        fun s => sfieldLoop methodId q.object s q.fields >>=
          fun s => soqlLoop methodId s rest) = .ok s3
      rw [hs1, except_bind_ok, hs2, except_bind_ok, hrec]
    · intro k hk
      refine hmono3 k (hmono2 k ?_)
      rw [hn1]
      exact addNode_preserves _ _ _ hk

theorem dmlLoop_ok (methodId : String) :
    ∀ (ds : List DmlOp) (s : SemanticGraph),
      (mlookup s.nodes methodId).isSome = true →
      ∃ s', dmlLoop methodId s ds = .ok s' ∧ NodesMono s s' := by
  intro ds
  induction ds with
  | nil => exact fun s _ => ⟨s, rfl, fun k hk => hk⟩
  | cons d rest ih =>
    intro s hm
    match hobj : d.object with
    | none =>
      obtain ⟨s', hs', hmono⟩ := ih s hm
      refine ⟨s', ?_, hmono⟩
      show (match d.object with
        | some obj =>
          if obj = "" then dmlLoop methodId s rest
          else do
            let r := addNode s "sobject" obj Metadata.empty
            let s ← addEdgeE r.1 methodId r.2 d.type (EdgeMeta.dmlMeta d.target d.line)
            dmlLoop methodId s rest
        | none => dmlLoop methodId s rest) = .ok s'
      rw [hobj]
      exact hs'
    | some obj =>
      by_cases hemp : obj = ""
      · obtain ⟨s', hs', hmono⟩ := ih s hm
        refine ⟨s', ?_, hmono⟩
        show (match d.object with
          | some obj =>
            if obj = "" then dmlLoop methodId s rest
            else do
              let r := addNode s "sobject" obj Metadata.empty
              let s ← addEdgeE r.1 methodId r.2 d.type (EdgeMeta.dmlMeta d.target d.line)
              dmlLoop methodId s rest
          | none => dmlLoop methodId s rest) = .ok s'
        rw [hobj]
        dsimp only
        rw [if_pos hemp]
        exact hs'
      · have h1 : (mlookup (addNode s "sobject" obj Metadata.empty).1.nodes
            methodId).isSome = true := addNode_preserves _ _ _ hm
        have h2 := addNode_self s "sobject" obj Metadata.empty
        obtain ⟨s1, hs1, hn1⟩ := addEdgeE_ok d.type (EdgeMeta.dmlMeta d.target d.line) h1 h2
        have hm1 : (mlookup s1.nodes methodId).isSome = true := by rw [hn1]; exact h1
        obtain ⟨s2, hrec, hmono2⟩ := ih s1 hm1
        refine ⟨s2, ?_, ?_⟩
        · show (match d.object with
            | some obj =>
              if obj = "" then dmlLoop methodId s rest
              else do
                let r := addNode s "sobject" obj Metadata.empty
                let s ← addEdgeE r.1 methodId r.2 d.type (EdgeMeta.dmlMeta d.target d.line)
                dmlLoop methodId s rest
            | none => dmlLoop methodId s rest) = .ok s2
          rw [hobj]
          dsimp only
          rw [if_neg hemp, hs1, except_bind_ok, hrec]
        · intro k hk
          refine hmono2 k ?_
          rw [hn1]
          exact addNode_preserves _ _ _ hk

theorem addMethodNode_ok (classId : String) (m : ParsedMethod) (p : ParsedClass)
    (s : SemanticGraph) (hc : (mlookup s.nodes classId).isSome = true) :
    ∃ s' mid, addMethodNode s classId m p = .ok (s', mid) ∧ NodesMono s s' := by
  set md := Metadata.methodMeta m.returnType m.parameters m.modifiers m.complexity m.line
    with hmd
  set key := p.name ++ "." ++ m.name with hkey
  set r := addNode s "method" key md with hr
  set s0 : SemanticGraph := { r.1 with methodNodes := mset r.1.methodNodes key r.2 }
    with hs0def
  have h1 : (mlookup s0.nodes classId).isSome = true := addNode_preserves _ _ _ hc
  have h2 : (mlookup s0.nodes r.2).isSome = true := addNode_self s "method" key md
  obtain ⟨s1, hs1, hn1⟩ := addEdgeE_ok "contains" (EdgeMeta.kindMeta "method") h1 h2
  have hm1 : (mlookup s1.nodes r.2).isSome = true := by rw [hn1]; exact h2
  obtain ⟨s2, hs2, hmono2⟩ := soqlLoop_ok r.2 m.soql s1 hm1
  have hm2 := hmono2 _ hm1
  obtain ⟨s3, hs3, hmono3⟩ := dmlLoop_ok r.2 m.dml s2 hm2
  refine ⟨s3, r.2, ?_, ?_⟩
  · have heq : addMethodNode s classId m p =
        (addEdgeE s0 classId r.2 "contains" (EdgeMeta.kindMeta "method") >>=
          fun s => addSOQLReferences s r.2 m >>= fun s => addDMLReferences s r.2 m >>=
            fun s => pure (s, r.2)) := rfl
    rw [heq, hs1, except_bind_ok,
      show addSOQLReferences s1 r.2 m = soqlLoop r.2 s1 m.soql from rfl, hs2,
      except_bind_ok,
      show addDMLReferences s2 r.2 m = dmlLoop r.2 s2 m.dml from rfl, hs3, except_bind_ok]
    rfl
  · intro k hk
    refine hmono3 k (hmono2 k ?_)
    rw [hn1]
    exact addNode_preserves _ _ _ hk

theorem addFieldNode_ok (classId : String) (fld : ParsedField) (s : SemanticGraph)
    (hc : (mlookup s.nodes classId).isSome = true) :
    ∃ s' fid, addFieldNode s classId fld = .ok (s', fid) ∧ NodesMono s s' := by
  obtain ⟨classNode, hcn⟩ := Option.isSome_iff_exists.mp hc
  set md := Metadata.fieldMeta fld.type fld.modifiers fld.initialValue with hmd
  set nm := classNode.name ++ "." ++ fld.name with hnm
  set r := addNode s "field" nm md with hr
  have h1 : (mlookup r.1.nodes classId).isSome = true := addNode_preserves _ _ _ hc
  have h2 : (mlookup r.1.nodes r.2).isSome = true := addNode_self s "field" nm md
  obtain ⟨s1, hs1, hn1⟩ := addEdgeE_ok "contains" (EdgeMeta.kindMeta "field") h1 h2
  refine ⟨s1, r.2, ?_, ?_⟩
  · have heq : addFieldNode s classId fld =
        (addEdgeE r.1 classId r.2 "contains" (EdgeMeta.kindMeta "field") >>=
          fun s2 => pure (s2, r.2)) := by
      unfold addFieldNode
      rw [hcn]
    rw [heq, hs1, except_bind_ok]
    rfl
  · intro k hk
    rw [hn1]
    exact addNode_preserves _ _ _ hk

theorem objLoop_ok (classId : String) :
    ∀ (objs : List String) (s : SemanticGraph),
      (mlookup s.nodes classId).isSome = true →
      ∃ s', objLoop classId s objs = .ok s' ∧ NodesMono s s' := by
  intro objs
  induction objs with
  | nil => exact fun s _ => ⟨s, rfl, fun k hk => hk⟩
  | cons objectName rest ih =>
    intro s hc
    set r := addNode s "sobject" objectName (Metadata.sobjectMeta true) with hr
    set s0 : SemanticGraph := { r.1 with objectNodes := mset r.1.objectNodes objectName r.2 }
      with hs0def
    have h1 : (mlookup s0.nodes classId).isSome = true := addNode_preserves _ _ _ hc
    have h2 : (mlookup s0.nodes r.2).isSome = true :=
      addNode_self s "sobject" objectName (Metadata.sobjectMeta true)
    obtain ⟨s1, hs1, hn1⟩ := addEdgeE_ok "accesses" (EdgeMeta.kindMeta "sobject") h1 h2
    have hc1 : (mlookup s1.nodes classId).isSome = true := by rw [hn1]; exact h1
    obtain ⟨s2, hrec, hmono2⟩ := ih s1 hc1
    refine ⟨s2, ?_, ?_⟩
    · have heq : objLoop classId s (objectName :: rest) =
          (addEdgeE s0 classId r.2 "accesses" (EdgeMeta.kindMeta "sobject") >>=
            fun s => objLoop classId s rest) := rfl
      rw [heq, hs1, except_bind_ok]
      exact hrec
    · intro k hk
      refine hmono2 k ?_
      rw [hn1]
      exact addNode_preserves _ _ _ hk

theorem methodsLoop_ok (classId : String) (p : ParsedClass) :
    ∀ (ms : List ParsedMethod) (s : SemanticGraph),
      (mlookup s.nodes classId).isSome = true →
      ∃ s', methodsLoop classId p s ms = .ok s' ∧ NodesMono s s' := by
  intro ms
  induction ms with
  | nil => exact fun s _ => ⟨s, rfl, fun k hk => hk⟩
  | cons m rest ih =>
    intro s hc
    obtain ⟨s1, mid, hs1, hmono1⟩ := addMethodNode_ok classId m p s hc
    obtain ⟨s2, hrec, hmono2⟩ := ih s1 (hmono1 classId hc)
    refine ⟨s2, ?_, fun k hk => hmono2 k (hmono1 k hk)⟩
    have heq : methodsLoop classId p s (m :: rest) =
        (addMethodNode s classId m p >>= fun r => methodsLoop classId p r.1 rest) := rfl
    rw [heq, hs1, except_bind_ok]
    exact hrec

theorem fieldsLoop_ok (classId : String) :
    ∀ (fs : List ParsedField) (s : SemanticGraph),
      (mlookup s.nodes classId).isSome = true →
      ∃ s', fieldsLoop classId s fs = .ok s' ∧ NodesMono s s' := by
  intro fs
  induction fs with
  | nil => exact fun s _ => ⟨s, rfl, fun k hk => hk⟩
  | cons fld rest ih =>
    intro s hc
    obtain ⟨s1, fid, hs1, hmono1⟩ := addFieldNode_ok classId fld s hc
    obtain ⟨s2, hrec, hmono2⟩ := ih s1 (hmono1 classId hc)
    refine ⟨s2, ?_, fun k hk => hmono2 k (hmono1 k hk)⟩
    have heq : fieldsLoop classId s (fld :: rest) =
        (addFieldNode s classId fld >>= fun r => fieldsLoop classId r.1 rest) := rfl
    rw [heq, hs1, except_bind_ok]
    exact hrec

/-- C10: building the graph from a parsed unit never triggers the
missing-endpoint usage error: every internal `addEdge` call of
`addClassNode` is preceded by `addNode` calls for both of its endpoints, so
`addClassNode` always returns normally, from any starting graph. -/
theorem addClassNode_total (s : SemanticGraph) (p : ParsedClass) :
    ∃ s' id, addClassNode s p = .ok (s', id) := by
  set md := Metadata.classMeta p.file p.type p.modifiers p.implementsL p.extendsS with hmd
  set r := addNode s "class" p.name md with hr
  set s0 : SemanticGraph := { r.1 with classNodes := mset r.1.classNodes p.name r.2 }
    with hs0def
  have hc0 : (mlookup s0.nodes r.2).isSome = true := addNode_self s "class" p.name md
  obtain ⟨s1, hs1, hmono1⟩ := methodsLoop_ok r.2 p p.methods s0 hc0
  obtain ⟨s2, hs2, hmono2⟩ := fieldsLoop_ok r.2 p.fields s1 (hmono1 _ hc0)
  obtain ⟨s3, hs3, hmono3⟩ := objLoop_ok r.2 (collectObjects p) s2 (hmono2 _ (hmono1 _ hc0))
  refine ⟨s3, r.2, ?_⟩
  have heq : addClassNode s p =
      (methodsLoop r.2 p s0 p.methods >>= fun s => fieldsLoop r.2 s p.fields >>=
        fun s => addSObjectReferences s r.2 p >>= fun s => pure (s, r.2)) := rfl
  rw [heq, hs1, except_bind_ok, hs2, except_bind_ok,
    show addSObjectReferences s2 r.2 p = objLoop r.2 s2 (collectObjects p) from rfl,
    hs3, except_bind_ok]
  rfl

end AsfST
